import Mathlib

/-!
# Relationship-payload cache: shallow embedding

This file embeds the bidirectional relationship-payload cache of the
repository in Lean 4 and proves properties about it.  The repository
contains two variants of the cache:

* `relationships-payloads.js` under the addon's private system tree
  (embedded below in namespace `Addon`): payload entries are the raw
  pushed fragments `{data: ...}`, `_addToInverse` skips reflexive
  self-references, and `_getRelationshipPayloads` only creates a ledger
  when its `init` argument is true (so `get` never creates one).

* the unnamed source file (embedded in namespace `Part000`): payload
  entries are `{payload: ..., inverse: bool}` pairs carrying a
  provenance flag, `_addToInverse` has no reflexive-skip, and
  `_getRelationshipPayloads` creates a missing ledger unconditionally.

JavaScript objects used as id-keyed dictionaries are modelled as
association lists (`Store`); property assignment is `setS`, `delete` is
`eraseS`, and membership lookup is `lookupS`.  The store's
`hasRecordForId` residency check is abstracted as a boolean function
parameter.  Schema reflection (`relationshipsByName`, `inverseFor`,
relationship `kind`) is modelled by the `Schema` / `RelMeta` types.
-/

namespace RelCache

/-- A resource reference `{id, type}`, identifying one entity. -/
structure Ref where
  id : String
  type : String
deriving DecidableEq, Repr

/-- The `data` member of a relationship fragment: `null`, a single
reference object, or an array of references. -/
inductive Data where
  | null : Data
  | single (r : Ref) : Data
  | list (rs : List Ref) : Data
deriving DecidableEq, Repr

/-- A relationship fragment `{ data: null | {id,type} | [{id,type},...] }`. -/
structure Payload where
  data : Data
deriving DecidableEq, Repr

/-- The references held by a `Data` value: none for `null`, the one
element for `single`, the array's elements for `list`. -/
def Data.refs : Data → List Ref
  | .null => []
  | .single r => [r]
  | .list rs => rs

/-- Whether a `Data` value holds a reference whose `id` equals `i`
(the comparison the JS code performs in `filter(x => x.id !== id)`). -/
def Data.hasId (d : Data) (i : String) : Bool :=
  d.refs.any (fun r => r.id == i)

/-- The ids of the references held by a `Data` value. -/
def Data.ids (d : Data) : List String :=
  d.refs.map Ref.id

/-- A JavaScript object used as a dictionary, modelled as an association
list from keys to values. -/
abbrev Store (α : Type) : Type := List (String × α)

/-- Dictionary lookup: `obj[k]`, `undefined` becoming `none`. -/
def lookupS {α : Type} (s : Store α) (k : String) : Option α :=
  match s with
  | [] => none
  | (k', v) :: rest => if k' = k then some v else lookupS rest k

/-- Dictionary assignment `obj[k] = v`: replaces the binding if the key
is present, otherwise appends it. -/
def setS {α : Type} (s : Store α) (k : String) (v : α) : Store α :=
  match s with
  | [] => [(k, v)]
  | (k', v') :: rest => if k' = k then (k, v) :: rest else (k', v') :: setS rest k v

/-- Dictionary deletion `delete obj[k]`. -/
def eraseS {α : Type} (s : Store α) (k : String) : Store α :=
  match s with
  | [] => []
  | (k', v) :: rest => if k' = k then eraseS rest k else (k', v) :: eraseS rest k

/-- Schema metadata for one declared relationship: its kind
(`hasMany` versus `belongsTo`), its target model name
(`relationshipMeta.type`) and the inverse relationship's name as
`inverseFor` would resolve it (`none` models a null inverse). -/
structure RelMeta where
  isMany : Bool
  type : String
  inverseName : Option String
deriving DecidableEq, Repr

/-- Schema reflection: model name to relationship name to metadata
(`relationshipsByName` for every model class). -/
abbrev Schema : Type := Store (Store RelMeta)

/-- Look up the declared metadata of `(modelName, relationshipName)`. -/
def relMeta (s : Schema) (m rn : String) : Option RelMeta :=
  match lookupS s m with
  | none => none
  | some rels => lookupS rels rn

/-- `relationshipsByName.has(relationshipName)` for the given model. -/
def schemaHas (s : Schema) (m rn : String) : Bool :=
  (relMeta s m rn).isSome

/-- The `hasRecordForId` helper: a reference counts as resident only if
its type and id are well-formed and the backing store has a
materialized record for it.  References are total in this model, so
the well-formedness guards of the source are always satisfied and the
check reduces to the store's answer. -/
def hasRecordForId (resident : String → String → Bool) (t i : String) : Bool :=
  resident t i

/-- Lexicographic order on character lists, modelling the JS `<`
comparison of two key strings. -/
def charListLt : List Char → List Char → Bool
  | [], [] => false
  | [], _ :: _ => true
  | _ :: _, [] => false
  | a :: as, b :: bs => if a < b then true else if b < a then false else charListLt as bs

/-- JS string comparison `a < b` (lexicographic). -/
def strLt (a b : String) : Bool :=
  charListLt a.toList b.toList

end RelCache

namespace RelCache.Addon

open RelCache

/-- A payload entry of the addon variant: the raw fragment itself.  This
variant attaches no provenance flag to entries. -/
abbrev Entry : Type := Payload

/-- The `RelationshipPayloads` ledger of the addon variant: static
identification of both sides, the resolved cardinality of each side,
the two id-keyed payload stores and the pending push queue.  When the
relationship is reflexive the source aliases `_rhsPayloads` to
`_lhsPayloads`; the model keeps the two fields equal instead, every
reflexive write updating both. -/
structure Ledger where
  lhsModelName : String
  lhsRelationshipName : String
  rhsModelName : String
  rhsRelationshipName : String
  lhsIsMany : Bool
  rhsIsMany : Bool
  lhsPayloads : Store Entry
  rhsPayloads : Store Entry
  pending : List (String × String × String × Payload)
deriving DecidableEq, Repr

/-- The `_isReflexive` test of the constructor: both sides name the same
model and relationship. -/
def Ledger.isReflexive (l : Ledger) : Bool :=
  l.lhsModelName == l.rhsModelName && l.lhsRelationshipName == l.rhsRelationshipName

/-- A fresh ledger with the given sides and cardinalities and empty
stores and queue. -/
def mkLedger (lm lrn rm rrn : String) (lMany rMany : Bool) : Ledger :=
  { lhsModelName := lm, lhsRelationshipName := lrn
    rhsModelName := rm, rhsRelationshipName := rrn
    lhsIsMany := lMany, rhsIsMany := rMany
    lhsPayloads := [], rhsPayloads := [], pending := [] }

/-- `push`: appends the tuple to `_pendingPayloads`; nothing else. -/
def Ledger.pushPending (l : Ledger) (modelName id relationshipName : String)
    (relationshipData : Payload) : Ledger :=
  { l with pending := l.pending ++ [(modelName, id, relationshipName, relationshipData)] }

/-- `_addToInverse`: skip a reflexive self-reference; else append to an
existing array, and otherwise install a fresh one-element array (many
side) or the inverse payload itself (one side). -/
def addToInverse (refl : Bool) (back : Ref) (inverseId : String)
    (inversePayloads : Store Entry) (inverseIsMany : Bool) : Store Entry :=
  if refl && back.id == inverseId then
    inversePayloads
  else
    match lookupS inversePayloads inverseId with
    | some existing =>
      match existing.data with
      | .list rs => setS inversePayloads inverseId ⟨.list (rs ++ [back])⟩
      | _ =>
        if inverseIsMany then setS inversePayloads inverseId ⟨.list [back]⟩
        else setS inversePayloads inverseId ⟨.single back⟩
    | none =>
      if inverseIsMany then setS inversePayloads inverseId ⟨.list [back]⟩
      else setS inversePayloads inverseId ⟨.single back⟩

/-- `_populateInverse`: add the back-reference for every reference of
the freshly pushed data. -/
def populateInverse (refl : Bool) (relationshipData : Payload) (back : Ref)
    (inversePayloads : Store Entry) (inverseIsMany : Bool) : Store Entry :=
  match relationshipData.data with
  | .null => inversePayloads
  | .single r => addToInverse refl back r.id inversePayloads inverseIsMany
  | .list rs =>
    rs.foldl (fun st r => addToInverse refl back r.id st inverseIsMany) inversePayloads

/-- `_removeFromInverse`: filter `id` out of an array entry, null out a
single entry, leave missing or null data alone. -/
def removeFromInverse (id inverseId : String) (inversePayloads : Store Entry) :
    Store Entry :=
  match lookupS inversePayloads inverseId with
  | none => inversePayloads
  | some e =>
    match e.data with
    | .null => inversePayloads
    | .list rs => setS inversePayloads inverseId ⟨.list (rs.filter (fun x => x.id != id))⟩
    | .single _ => setS inversePayloads inverseId ⟨.null⟩

/-- `_removeInverse`: strike `id` from each entry the old payload
referenced. -/
def removeInverse (id : String) (payload : Option Entry)
    (inversePayloads : Store Entry) : Store Entry :=
  match payload with
  | none => inversePayloads
  | some e =>
    match e.data with
    | .null => inversePayloads
    | .single r => removeFromInverse id r.id inversePayloads
    | .list rs => rs.foldl (fun st r => removeFromInverse id r.id st) inversePayloads

/-- One iteration of the `_flushPending` loop: strike the previous
entry's inverse effects, overwrite the own side, populate the other
side.  Reflexive ledgers run all three steps against the single shared
store. -/
def flushStep (l : Ledger) (w : String × String × String × Payload) : Ledger :=
  match w with
  | (modelName, id, relationshipName, relationshipData) =>
    let back : Ref := ⟨id, modelName⟩
    if modelName == l.lhsModelName && relationshipName == l.lhsRelationshipName then
      if l.isReflexive then
        let s := l.lhsPayloads
        let s := removeInverse id (lookupS s id) s
        let s := setS s id relationshipData
        let s := populateInverse true relationshipData back s l.rhsIsMany
        { l with lhsPayloads := s, rhsPayloads := s }
      else
        let rhs := removeInverse id (lookupS l.lhsPayloads id) l.rhsPayloads
        let lhs := setS l.lhsPayloads id relationshipData
        let rhs := populateInverse false relationshipData back rhs l.rhsIsMany
        { l with lhsPayloads := lhs, rhsPayloads := rhs }
    else
      if l.isReflexive then
        let s := l.lhsPayloads
        let s := removeInverse id (lookupS s id) s
        let s := setS s id relationshipData
        let s := populateInverse true relationshipData back s l.lhsIsMany
        { l with lhsPayloads := s, rhsPayloads := s }
      else
        let lhs := removeInverse id (lookupS l.rhsPayloads id) l.lhsPayloads
        let rhs := setS l.rhsPayloads id relationshipData
        let lhs := populateInverse false relationshipData back lhs l.lhsIsMany
        { l with lhsPayloads := lhs, rhsPayloads := rhs }

/-- `_flushPending`: process the queue strictly in arrival order,
consuming it. -/
def Ledger.flushPending (l : Ledger) : Ledger :=
  l.pending.foldl flushStep { l with pending := [] }

/-- The store the given `(modelName, relationshipName)` addresses: the
side test of `get`/`unload`. -/
def Ledger.ownStore (l : Ledger) (modelName relationshipName : String) : Store Entry :=
  if modelName == l.lhsModelName && relationshipName == l.lhsRelationshipName then
    l.lhsPayloads
  else
    l.rhsPayloads

/-- The opposite store of `ownStore`. -/
def Ledger.otherStore (l : Ledger) (modelName relationshipName : String) : Store Entry :=
  if modelName == l.lhsModelName && relationshipName == l.lhsRelationshipName then
    l.rhsPayloads
  else
    l.lhsPayloads

/-- The lookup performed by `get` after its flush. -/
def Ledger.getEntry (l : Ledger) (modelName id relationshipName : String) : Option Entry :=
  lookupS (l.ownStore modelName relationshipName) id

/-- `get(modelName, id, relationshipName)`: flush, then read the
matching side; the flushed ledger is the mutated receiver. -/
def Ledger.get (l : Ledger) (modelName id relationshipName : String) :
    Ledger × Option Entry :=
  let lf := l.flushPending
  (lf, lf.getEntry modelName id relationshipName)

/-- `_inverseLoaded`: does the entry reference at least one resident
inverse entity? -/
def inverseLoaded (resident : String → String → Bool) : Option Entry → Bool
  | none => false
  | some p =>
    match p.data with
    | .null => false
    | .single r => hasRecordForId resident r.type r.id
    | .list rs => rs.any (fun r => hasRecordForId resident r.type r.id)

/-- `_unload` on a chosen pair of stores: when no referenced inverse is
resident, strike the inverse entries and delete the own entry. -/
def unloadId (resident : String → String → Bool) (id : String)
    (payloads inversePayloads : Store Entry) : Store Entry × Store Entry :=
  if inverseLoaded resident (lookupS payloads id) then
    (payloads, inversePayloads)
  else
    let inv := removeInverse id (lookupS payloads id) inversePayloads
    (eraseS payloads id, inv)

/-- `unload(modelName, id, relationshipName)`: flush, then `_unload` on
the matching side.  Reflexive ledgers run against the single shared
store. -/
def Ledger.unload (resident : String → String → Bool) (l : Ledger)
    (modelName id relationshipName : String) : Ledger :=
  let lf := l.flushPending
  if modelName == lf.lhsModelName && relationshipName == lf.lhsRelationshipName then
    if lf.isReflexive then
      if inverseLoaded resident (lookupS lf.lhsPayloads id) then lf
      else
        let s := removeInverse id (lookupS lf.lhsPayloads id) lf.lhsPayloads
        let s := eraseS s id
        { lf with lhsPayloads := s, rhsPayloads := s }
    else
      let (own, inv) := unloadId resident id lf.lhsPayloads lf.rhsPayloads
      { lf with lhsPayloads := own, rhsPayloads := inv }
  else
    if lf.isReflexive then
      if inverseLoaded resident (lookupS lf.lhsPayloads id) then lf
      else
        let s := removeInverse id (lookupS lf.lhsPayloads id) lf.lhsPayloads
        let s := eraseS s id
        { lf with lhsPayloads := s, rhsPayloads := s }
    else
      let (own, inv) := unloadId resident id lf.rhsPayloads lf.lhsPayloads
      { lf with rhsPayloads := own, lhsPayloads := inv }

/-- Whether the optional entry at hand holds a reference with id `i`. -/
def hasIdAt (s : Store Entry) (k i : String) : Bool :=
  match lookupS s k with
  | none => false
  | some e => e.data.hasId i

/-- Whether the optional entry contains the exact reference `r`. -/
def entryContainsRef : Option Entry → Ref → Bool
  | none, _ => false
  | some p, r => decide (r ∈ p.data.refs)

/-- The references of an optional entry (empty when absent or null). -/
def refsOfEntry : Option Entry → List Ref
  | none => []
  | some e => e.data.refs

end RelCache.Addon

namespace RelCache.Part000

open RelCache

/-- A payload entry of the unnamed variant: the fragment plus the
`inverse` provenance flag (`false` for a directly pushed fragment,
`true` for one synthesized from the inverse side). -/
structure Entry where
  payload : Payload
  inverse : Bool
deriving DecidableEq, Repr

/-- The `RelationshipPayloads` ledger of the unnamed variant.  The
lazily memoized cardinality getters of the source always resolve to the
same schema answer, so they are carried as resolved fields.  Reflexive
aliasing of the two stores is modelled as in `Addon.Ledger`. -/
structure Ledger where
  lhsModelName : String
  lhsRelationshipName : String
  rhsModelName : String
  rhsRelationshipName : String
  lhsIsMany : Bool
  rhsIsMany : Bool
  lhsPayloads : Store Entry
  rhsPayloads : Store Entry
  pending : List (String × String × String × Payload)
deriving DecidableEq, Repr

/-- The reflexive-aliasing test of the constructor. -/
def Ledger.isReflexive (l : Ledger) : Bool :=
  l.lhsModelName == l.rhsModelName && l.lhsRelationshipName == l.rhsRelationshipName

/-- A fresh ledger with the given sides and cardinalities. -/
def mkLedger (lm lrn rm rrn : String) (lMany rMany : Bool) : Ledger :=
  { lhsModelName := lm, lhsRelationshipName := lrn
    rhsModelName := rm, rhsRelationshipName := rrn
    lhsIsMany := lMany, rhsIsMany := rMany
    lhsPayloads := [], rhsPayloads := [], pending := [] }

/-- `push`: appends the tuple to `_pendingPayloads`. -/
def Ledger.pushPending (l : Ledger) (modelName id relationshipName : String)
    (relationshipData : Payload) : Ledger :=
  { l with pending := l.pending ++ [(modelName, id, relationshipName, relationshipData)] }

/-- `_addToInverse` of the unnamed variant: append to an existing array
(leaving the entry's flag as it was), else install a fresh
inverse-derived entry.  This variant has no reflexive self-skip. -/
def addToInverse (back : Ref) (inverseId : String)
    (inversePayloads : Store Entry) (inverseIsMany : Bool) : Store Entry :=
  match lookupS inversePayloads inverseId with
  | some existing =>
    match existing.payload.data with
    | .list rs => setS inversePayloads inverseId ⟨⟨.list (rs ++ [back])⟩, existing.inverse⟩
    | _ =>
      if inverseIsMany then setS inversePayloads inverseId ⟨⟨.list [back]⟩, true⟩
      else setS inversePayloads inverseId ⟨⟨.single back⟩, true⟩
  | none =>
    if inverseIsMany then setS inversePayloads inverseId ⟨⟨.list [back]⟩, true⟩
    else setS inversePayloads inverseId ⟨⟨.single back⟩, true⟩

/-- `_populateInverse` of the unnamed variant. -/
def populateInverse (relationshipData : Payload) (back : Ref)
    (inversePayloads : Store Entry) (inverseIsMany : Bool) : Store Entry :=
  match relationshipData.data with
  | .null => inversePayloads
  | .single r => addToInverse back r.id inversePayloads inverseIsMany
  | .list rs =>
    rs.foldl (fun st r => addToInverse back r.id st inverseIsMany) inversePayloads

/-- `_removeFromInverse` of the unnamed variant: filtering an array
leaves the entry's flag untouched; nulling a single entry installs an
inverse-derived null entry. -/
def removeFromInverse (id inverseId : String) (inversePayloads : Store Entry) :
    Store Entry :=
  match lookupS inversePayloads inverseId with
  | none => inversePayloads
  | some e =>
    match e.payload.data with
    | .null => inversePayloads
    | .list rs =>
      setS inversePayloads inverseId ⟨⟨.list (rs.filter (fun x => x.id != id))⟩, e.inverse⟩
    | .single _ => setS inversePayloads inverseId ⟨⟨.null⟩, true⟩

/-- `_removeInverse` of the unnamed variant. -/
def removeInverse (id : String) (entry : Option Entry)
    (inversePayloads : Store Entry) : Store Entry :=
  match entry with
  | none => inversePayloads
  | some e =>
    match e.payload.data with
    | .null => inversePayloads
    | .single r => removeFromInverse id r.id inversePayloads
    | .list rs => rs.foldl (fun st r => removeFromInverse id r.id st) inversePayloads

/-- One iteration of the `_flushPending` loop of the unnamed variant:
the own side receives `{payload, inverse: false}`; inverse entries are
derived with `inverse: true`. -/
def flushStep (l : Ledger) (w : String × String × String × Payload) : Ledger :=
  match w with
  | (modelName, id, relationshipName, relationshipData) =>
    let back : Ref := ⟨id, modelName⟩
    let entry : Entry := ⟨relationshipData, false⟩
    if modelName == l.lhsModelName && relationshipName == l.lhsRelationshipName then
      if l.isReflexive then
        let s := l.lhsPayloads
        let s := removeInverse id (lookupS s id) s
        let s := setS s id entry
        let s := populateInverse relationshipData back s l.rhsIsMany
        { l with lhsPayloads := s, rhsPayloads := s }
      else
        let rhs := removeInverse id (lookupS l.lhsPayloads id) l.rhsPayloads
        let lhs := setS l.lhsPayloads id entry
        let rhs := populateInverse relationshipData back rhs l.rhsIsMany
        { l with lhsPayloads := lhs, rhsPayloads := rhs }
    else
      if l.isReflexive then
        let s := l.lhsPayloads
        let s := removeInverse id (lookupS s id) s
        let s := setS s id entry
        let s := populateInverse relationshipData back s l.lhsIsMany
        { l with lhsPayloads := s, rhsPayloads := s }
      else
        let lhs := removeInverse id (lookupS l.rhsPayloads id) l.lhsPayloads
        let rhs := setS l.rhsPayloads id entry
        let lhs := populateInverse relationshipData back lhs l.lhsIsMany
        { l with lhsPayloads := lhs, rhsPayloads := rhs }

/-- `_flushPending` of the unnamed variant. -/
def Ledger.flushPending (l : Ledger) : Ledger :=
  l.pending.foldl flushStep { l with pending := [] }

/-- The store addressed by `(modelName, relationshipName)`. -/
def Ledger.ownStore (l : Ledger) (modelName relationshipName : String) : Store Entry :=
  if modelName == l.lhsModelName && relationshipName == l.lhsRelationshipName then
    l.lhsPayloads
  else
    l.rhsPayloads

/-- The lookup performed by `get` after its flush. -/
def Ledger.getEntry (l : Ledger) (modelName id relationshipName : String) : Option Entry :=
  lookupS (l.ownStore modelName relationshipName) id

/-- `get` of the unnamed variant: flush, then read the matching side. -/
def Ledger.get (l : Ledger) (modelName id relationshipName : String) :
    Ledger × Option Entry :=
  let lf := l.flushPending
  (lf, lf.getEntry modelName id relationshipName)

end RelCache.Part000

namespace RelCache.Addon

open RelCache

/-- The per-store registry of the addon variant: `_cache`, keyed by
`modelName:relationshipName` for both sides of each ledger. -/
structure Registry where
  cache : Store Ledger
deriving DecidableEq, Repr

/-- The cache key of one side. -/
def keyFor (m rn : String) : String :=
  m ++ ":" ++ rn

/-- The empty registry of a fresh store. -/
def emptyRegistry : Registry :=
  ⟨[]⟩

/-- `_initializeRelationshipPayloads`: resolve the inverse through the
schema (empty identifiers when there is none) and build a ledger whose
cardinalities come from both sides' metadata. -/
def mkLedgerFromSchema (s : Schema) (m rn : String) (meta : RelMeta) : Ledger :=
  match meta.inverseName with
  | some invName =>
    { lhsModelName := m, lhsRelationshipName := rn
      rhsModelName := meta.type, rhsRelationshipName := invName
      lhsIsMany := meta.isMany
      rhsIsMany := (relMeta s meta.type invName).elim false (fun x => x.isMany)
      lhsPayloads := [], rhsPayloads := [], pending := [] }
  | none =>
    { lhsModelName := m, lhsRelationshipName := rn
      rhsModelName := "", rhsRelationshipName := ""
      lhsIsMany := meta.isMany, rhsIsMany := false
      lhsPayloads := [], rhsPayloads := [], pending := [] }

/-- Write a ledger back into the cache under both of its keys, as the
initializer's double assignment (and in-place mutation thereafter)
keeps both keys pointing at the one object. -/
def Registry.setLedger (r : Registry) (l : Ledger) : Registry :=
  ⟨setS (setS r.cache (keyFor l.lhsModelName l.lhsRelationshipName) l)
      (keyFor l.rhsModelName l.rhsRelationshipName) l⟩

/-- `_getRelationshipPayloads`: nothing for a relationship the schema
does not declare; a cache hit resolves; a miss creates (under both
keys) only when `init` is true.  Returns the key at which the resolved
ledger sits. -/
def Registry.getRelationshipPayloads (r : Registry) (s : Schema) (m rn : String)
    (init : Bool) : Registry × Option String :=
  match relMeta s m rn with
  | none => (r, none)
  | some meta =>
    match lookupS r.cache (keyFor m rn) with
    | some _ => (r, some (keyFor m rn))
    | none =>
      if init then
        ((r.setLedger (mkLedgerFromSchema s m rn meta)), some (keyFor m rn))
      else
        (r, none)

/-- Registry `get`: resolve without creating, then delegate to the
ledger's `get` (which flushes; the flushed ledger is written back, as
the source mutates it in place). -/
def Registry.get (r : Registry) (s : Schema) (modelName id relationshipName : String) :
    Registry × Option Entry :=
  match r.getRelationshipPayloads s modelName relationshipName false with
  | (r', none) => (r', none)
  | (r', some key) =>
    match lookupS r'.cache key with
    | none => (r', none)
    | some l =>
      let lf := l.flushPending
      (r'.setLedger lf, lf.getEntry modelName id relationshipName)

/-- Registry `push`: for each present fragment key, resolve-or-create
the ledger and enqueue; unknown keys resolve to nothing and are
skipped. -/
def Registry.push (r : Registry) (s : Schema) (modelName id : String)
    (relationshipsData : List (String × Payload)) : Registry :=
  relationshipsData.foldl
    (fun acc kv =>
      match acc.getRelationshipPayloads s modelName kv.1 true with
      | (acc', none) => acc'
      | (acc', some key) =>
        match lookupS acc'.cache key with
        | none => acc'
        | some l => acc'.setLedger (l.pushPending modelName id kv.1 kv.2))
    r

end RelCache.Addon

namespace RelCache.Part000

open RelCache

/-- The per-store registry of the unnamed variant: `_map`, keyed by the
lexicographically canonical concatenation of both sides' keys. -/
structure Registry where
  map : Store Ledger
deriving DecidableEq, Repr

/-- The empty registry of a fresh store. -/
def emptyRegistry : Registry :=
  ⟨[]⟩

/-- `_inverseFor`: the inverse model and relationship names, both empty
when the schema reports no inverse. -/
def inverseFor (s : Schema) (m rn : String) : String × String :=
  match relMeta s m rn with
  | none => ("", "")
  | some meta =>
    match meta.inverseName with
    | none => ("", "")
    | some invName => (meta.type, invName)

/-- The lazily memoized cardinality getter: false for the empty model
name of a missing inverse, else the schema's relationship kind. -/
def relationshipIsMany (s : Schema) (m rn : String) : Bool :=
  if m == "" then false
  else (relMeta s m rn).elim false (fun x => x.isMany)

/-- Build the unnamed variant's ledger for a pair of sides. -/
def mkLedgerFromSchema (s : Schema) (m rn im irn : String) : Ledger :=
  { lhsModelName := m, lhsRelationshipName := rn
    rhsModelName := im, rhsRelationshipName := irn
    lhsIsMany := relationshipIsMany s m rn
    rhsIsMany := relationshipIsMany s im irn
    lhsPayloads := [], rhsPayloads := [], pending := [] }

/-- `_getRelationshipPayloads` of the unnamed variant: canonicalize the
pair key from both sides and create the ledger whenever it is missing,
on `get` and `push` alike.  Returns the canonical key. -/
def Registry.getRelationshipPayloads (r : Registry) (s : Schema) (m rn : String) :
    Registry × Option String :=
  match relMeta s m rn with
  | none => (r, none)
  | some _ =>
    let inv := inverseFor s m rn
    let keyPart1 := m ++ ":" ++ rn
    let keyPart2 := inv.1 ++ ":" ++ inv.2
    let key := if strLt keyPart1 keyPart2 then keyPart1 ++ ":" ++ keyPart2
               else keyPart2 ++ ":" ++ keyPart1
    match lookupS r.map key with
    | some _ => (r, some key)
    | none => (⟨setS r.map key (mkLedgerFromSchema s m rn inv.1 inv.2)⟩, some key)

/-- Registry `get` of the unnamed variant: resolve (creating on a
miss), then delegate to the ledger's `get`, writing the flushed ledger
back under the canonical key. -/
def Registry.get (r : Registry) (s : Schema) (modelName id relationshipName : String) :
    Registry × Option Entry :=
  match r.getRelationshipPayloads s modelName relationshipName with
  | (r', none) => (r', none)
  | (r', some key) =>
    match lookupS r'.map key with
    | none => (r', none)
    | some l =>
      let lf := l.flushPending
      (⟨setS r'.map key lf⟩, lf.getEntry modelName id relationshipName)

/-- Registry `push` of the unnamed variant. -/
def Registry.push (r : Registry) (s : Schema) (modelName id : String)
    (relationshipsData : List (String × Payload)) : Registry :=
  relationshipsData.foldl
    (fun acc kv =>
      match acc.getRelationshipPayloads s modelName kv.1 with
      | (acc', none) => acc'
      | (acc', some key) =>
        match lookupS acc'.map key with
        | none => acc'
        | some l => ⟨setS acc'.map key (l.pushPending modelName id kv.1 kv.2)⟩)
    r

end RelCache.Part000

namespace RelCache

/-- The worked example's schema: `user` has many `hobbies` whose
inverse is `hobby`'s `user` belongs-to. -/
def userHobbySchema : Schema :=
  [("user", [("hobbies", ⟨true, "hobby", some "user"⟩)]),
   ("hobby", [("user", ⟨false, "user", some "hobbies"⟩)])]

/-- A reflexive schema: `user` has many `friends` whose inverse is
itself. -/
def friendsSchema : Schema :=
  [("user", [("friends", ⟨true, "user", some "friends"⟩)])]

end RelCache

namespace RelCache

/-- Registry state after pushing `hobby/2 -> user/1` directly (addon). -/
def addonDirectPush : Addon.Registry :=
  Addon.Registry.push Addon.emptyRegistry userHobbySchema "hobby" "2"
    [("user", ⟨.single ⟨"1", "user"⟩⟩)]

/-- Registry state after pushing `user/1 -> hobbies [hobby/2]` (addon),
from which the `hobby/2` side is inverse-derived. -/
def addonDerivedPush : Addon.Registry :=
  Addon.Registry.push Addon.emptyRegistry userHobbySchema "user" "1"
    [("hobbies", ⟨.list [⟨"2", "hobby"⟩]⟩)]

/-- Registry state after pushing `hobby/2 -> user/1` directly
(unnamed variant). -/
def part000DirectPush : Part000.Registry :=
  Part000.Registry.push Part000.emptyRegistry userHobbySchema "hobby" "2"
    [("user", ⟨.single ⟨"1", "user"⟩⟩)]

/-- Registry state after pushing `user/1 -> hobbies [hobby/2]`
(unnamed variant). -/
def part000DerivedPush : Part000.Registry :=
  Part000.Registry.push Part000.emptyRegistry userHobbySchema "user" "1"
    [("hobbies", ⟨.list [⟨"2", "hobby"⟩]⟩)]

/-- The worked example of the spec, unnamed variant: push
`user/1 hobbies [hobby/2]`, then push `hobby/2 user: null`. -/
def part000WorkedExample : Part000.Registry :=
  Part000.Registry.push
    (Part000.Registry.push Part000.emptyRegistry userHobbySchema "user" "1"
      [("hobbies", ⟨.list [⟨"2", "hobby"⟩]⟩)])
    userHobbySchema "hobby" "2" [("user", ⟨.null⟩)]

/-- A reflexive `friends` ledger, addon variant, after pushing a
self-reference for `user/1`. -/
def addonReflexiveSelf : Addon.Ledger :=
  (Addon.mkLedger "user" "friends" "user" "friends" true true).pushPending
    "user" "1" "friends" ⟨.list [⟨"1", "user"⟩]⟩

/-- The same reflexive self-push in the unnamed variant. -/
def part000ReflexiveSelf : Part000.Ledger :=
  (Part000.mkLedger "user" "friends" "user" "friends" true true).pushPending
    "user" "1" "friends" ⟨.list [⟨"1", "user"⟩]⟩

/-- Two owners pushing the same to-one inverse: `user/1` and `user/3`
both claim `hobby/2` (addon ledger, flushed). -/
def addonTwoOwners : Addon.Ledger :=
  (((Addon.mkLedger "user" "hobbies" "hobby" "user" true false).pushPending
      "user" "1" "hobbies" ⟨.list [⟨"2", "hobby"⟩]⟩).pushPending
      "user" "3" "hobbies" ⟨.list [⟨"2", "hobby"⟩]⟩).flushPending

end RelCache

open RelCache in
/-- C1: the claim requires every entry returned by `get` to carry the
`isInverseDerived` provenance flag, true exactly for inverse-derived
entries.  The unnamed variant does: the same two scenarios (a direct
push of `hobby/2 -> user/1` versus derivation from a push of
`user/1 hobbies [2]`) yield entries flagged `inverse := false` and
`inverse := true`.  The addon variant returns bare payloads: the
directly pushed and the inverse-derived entry are one and the same
value, carrying no provenance flag at all, although the downstream
consumer destructures `{payload, inverse}` from it. -/
theorem provenance_flag_contract_divergence :
    (Addon.Registry.get addonDirectPush userHobbySchema "hobby" "2" "user").2
      = (Addon.Registry.get addonDerivedPush userHobbySchema "hobby" "2" "user").2 ∧
    (Addon.Registry.get addonDirectPush userHobbySchema "hobby" "2" "user").2
      = some ⟨.single ⟨"1", "user"⟩⟩ ∧
    (Part000.Registry.get part000DirectPush userHobbySchema "hobby" "2" "user").2
      = some ⟨⟨.single ⟨"1", "user"⟩⟩, false⟩ ∧
    (Part000.Registry.get part000DerivedPush userHobbySchema "hobby" "2" "user").2
      = some ⟨⟨.single ⟨"1", "user"⟩⟩, true⟩ := by
  refine ⟨rfl, rfl, rfl, rfl⟩

open RelCache in
/-- C2 counterexample: after flushing pushes of `user/1 hobbies [2]`
and `user/3 hobbies [2]`, side A's entry at `user/1` lists `hobby/2`,
but side B's entry at `hobby/2` holds no back-reference to
`(user, 1)`; the claimed state biconditional is false. -/
theorem mutual_reference_iff_counterexample :
    ¬ ((Addon.entryContainsRef (lookupS addonTwoOwners.rhsPayloads "2") ⟨"1", "user"⟩ = true)
        ↔ (Addon.hasIdAt addonTwoOwners.lhsPayloads "1" "2" = true)) := by
  decide

open RelCache in
/-- C3 counterexample: in the spec's worked example the final
`get('user', 1, 'hobbies')` does return the empty list, but with
`isInverseDerived = false`, not `true` as claimed: the strike pass
filters the directly pushed list in place without touching the
provenance flag. -/
theorem worked_example_flag_counterexample :
    ¬ ((Part000.Registry.get part000WorkedExample userHobbySchema "user" "1" "hobbies").2
        = some ⟨⟨.list []⟩, true⟩) := by
  decide

open RelCache in
/-- C3 amended: the worked example's final read yields the empty list
flagged `inverse := false` (and the intermediate read of step 2 yields
the derived single reference flagged `inverse := true`, as the spec
states). -/
theorem worked_example_clears_list :
    (Part000.Registry.get part000WorkedExample userHobbySchema "user" "1" "hobbies").2
      = some ⟨⟨.list []⟩, false⟩ ∧
    (Part000.Registry.get
        (Part000.Registry.push Part000.emptyRegistry userHobbySchema "user" "1"
          [("hobbies", ⟨.list [⟨"2", "hobby"⟩]⟩)])
        userHobbySchema "hobby" "2" "user").2
      = some ⟨⟨.single ⟨"1", "user"⟩⟩, true⟩ := by
  refine ⟨rfl, rfl⟩

open RelCache in
/-- C4: flushing a reflexive self-referential push.  The addon variant
skips the inverse-add for the self-reference, so the entity's own
entry stays exactly the pushed one-element list; the unnamed variant
has no such skip and appends a duplicate self-reference to the
entity's own list. -/
theorem reflexive_self_reference_variants :
    (Addon.Ledger.get addonReflexiveSelf "user" "1" "friends").2
      = some ⟨.list [⟨"1", "user"⟩]⟩ ∧
    (Part000.Ledger.get part000ReflexiveSelf "user" "1" "friends").2
      = some ⟨⟨.list [⟨"1", "user"⟩, ⟨"1", "user"⟩]⟩, false⟩ := by
  refine ⟨rfl, rfl⟩

open RelCache in
/-- C7: a `get` for a schema-declared relationship that was never
pushed.  The addon variant resolves with `init = false`, leaves the
registry's ledger cache exactly as it was and returns nothing; the
unnamed variant's resolution creates and caches a fresh ledger even on
this read path. -/
theorem get_ledger_creation_variants :
    (Addon.Registry.get Addon.emptyRegistry userHobbySchema "user" "1" "hobbies")
      = (Addon.emptyRegistry, none) ∧
    (Part000.Registry.get Part000.emptyRegistry userHobbySchema "user" "1" "hobbies").2
      = none ∧
    (Part000.Registry.get Part000.emptyRegistry userHobbySchema "user" "1" "hobbies").1.map.length
      = 1 := by
  refine ⟨rfl, rfl, rfl⟩

open RelCache in
/-- C8: a ledger `push` only appends its tuple to the pending queue;
both payload stores are untouched, in both variants. -/
theorem push_only_appends_pending
    (l : Addon.Ledger) (u : Part000.Ledger) (m i rn : String) (d : Payload) :
    (l.pushPending m i rn d).lhsPayloads = l.lhsPayloads ∧
    (l.pushPending m i rn d).rhsPayloads = l.rhsPayloads ∧
    (l.pushPending m i rn d).pending = l.pending ++ [(m, i, rn, d)] ∧
    (u.pushPending m i rn d).lhsPayloads = u.lhsPayloads ∧
    (u.pushPending m i rn d).rhsPayloads = u.rhsPayloads ∧
    (u.pushPending m i rn d).pending = u.pending ++ [(m, i, rn, d)] := by
  refine ⟨rfl, rfl, rfl, rfl, rfl, rfl⟩

namespace RelCache

theorem lookupS_setS_self {α : Type} (s : Store α) (k : String) (v : α) :
    lookupS (setS s k v) k = some v := by
  induction s with
  | nil => simp [setS, lookupS]
  | cons p rest ih =>
    by_cases h : p.1 = k
    · simp [setS, lookupS, h]
    · simpa [setS, lookupS, h] using ih

theorem lookupS_setS_ne {α : Type} (s : Store α) (k k' : String) (v : α)
    (h : k' ≠ k) : lookupS (setS s k v) k' = lookupS s k' := by
  induction s with
  | nil => simp [setS, lookupS, Ne.symm h]
  | cons p rest ih =>
    by_cases hp : p.1 = k
    · simp [setS, lookupS, hp, Ne.symm h]
    · by_cases hp' : p.1 = k'
      · simp [setS, lookupS, hp, hp', h, Ne.symm h]
      · simpa [setS, lookupS, hp, hp'] using ih

theorem lookupS_eraseS_self {α : Type} (s : Store α) (k : String) :
    lookupS (eraseS s k) k = none := by
  induction s with
  | nil => simp [eraseS, lookupS]
  | cons p rest ih =>
    by_cases h : p.1 = k
    · simpa [eraseS, h] using ih
    · simpa [eraseS, lookupS, h] using ih

theorem lookupS_eraseS_ne {α : Type} (s : Store α) (k k' : String) (h : k' ≠ k) :
    lookupS (eraseS s k) k' = lookupS s k' := by
  induction s with
  | nil => simp [eraseS, lookupS]
  | cons p rest ih =>
    by_cases hp : p.1 = k
    · have hp' : p.1 ≠ k' := by rw [hp]; exact Ne.symm h
      simpa [eraseS, lookupS, hp, hp', h, Ne.symm h] using ih
    · by_cases hp' : p.1 = k'
      · simp [eraseS, lookupS, hp, hp', h, Ne.symm h]
      · simpa [eraseS, lookupS, hp, hp'] using ih

theorem eraseS_of_lookupS_none {α : Type} (s : Store α) (k : String)
    (h : lookupS s k = none) : eraseS s k = s := by
  induction s with
  | nil => simp [eraseS]
  | cons p rest ih =>
    by_cases hp : p.1 = k
    · simp [lookupS, hp] at h
    · have h' : lookupS rest k = none := by simpa [lookupS, hp] using h
      simpa [eraseS, hp] using ih h'

theorem filter_ne_any_beq_false (rs : List Ref) (i : String) :
    ((rs.filter (fun x => x.id != i)).any (fun r => r.id == i)) = false := by
  simp only [List.any_eq_false]
  intro x hx
  have hm := List.mem_filter.mp hx
  simpa [bne_iff_ne, beq_iff_eq] using hm.2

end RelCache

namespace RelCache.Addon

open RelCache

theorem addToInverse_lookup_ne (refl : Bool) (back : Ref) (iid : String)
    (s : Store Entry) (m : Bool) (k : String) (h : k ≠ iid) :
    lookupS (addToInverse refl back iid s m) k = lookupS s k := by
  unfold addToInverse
  by_cases hs : (refl && back.id == iid) = true
  · simp [hs]
  · simp only [hs, if_neg, Bool.not_eq_true] at *
    cases hl : lookupS s iid with
    | none =>
      simp only [hs, hl]
      by_cases hm : m <;> simp [hm, lookupS_setS_ne _ _ _ _ h]
    | some e =>
      cases he : e.data with
      | null =>
        simp only [hs, hl, he]
        by_cases hm : m <;> simp [hm, lookupS_setS_ne _ _ _ _ h]
      | single r =>
        simp only [hs, hl, he]
        by_cases hm : m <;> simp [hm, lookupS_setS_ne _ _ _ _ h]
      | list rs => simp [hs, hl, he, lookupS_setS_ne _ _ _ _ h]

end RelCache.Addon

namespace RelCache.Addon

open RelCache

theorem addToInverse_contains_self (back : Ref) (iid : String)
    (s : Store Entry) (m : Bool) :
    entryContainsRef (lookupS (addToInverse false back iid s m) iid) back = true := by
  unfold addToInverse
  simp only [Bool.false_and, Bool.false_eq_true, if_false]
  cases hl : lookupS s iid with
  | none =>
    by_cases hm : m <;>
      simp [hl, hm, lookupS_setS_self, entryContainsRef, Data.refs]
  | some e =>
    cases he : e.data with
    | null =>
      by_cases hm : m <;>
        simp [hl, he, hm, lookupS_setS_self, entryContainsRef, Data.refs]
    | single r =>
      by_cases hm : m <;>
        simp [hl, he, hm, lookupS_setS_self, entryContainsRef, Data.refs]
    | list rs =>
      simp [hl, he, lookupS_setS_self, entryContainsRef, Data.refs]

theorem addToInverse_preserves_contains (back : Ref) (iid : String)
    (s : Store Entry) (m : Bool) (k : String)
    (h : entryContainsRef (lookupS s k) back = true) :
    entryContainsRef (lookupS (addToInverse false back iid s m) k) back = true := by
  by_cases hk : k = iid
  · subst hk
    exact addToInverse_contains_self back k s m
  · rw [addToInverse_lookup_ne false back iid s m k hk]
    exact h

theorem foldl_addToInverse_preserves_contains (back : Ref) (rs : List Ref)
    (s : Store Entry) (m : Bool) (k : String)
    (h : entryContainsRef (lookupS s k) back = true) :
    entryContainsRef
      (lookupS (rs.foldl (fun st r => addToInverse false back r.id st m) s) k) back
      = true := by
  induction rs generalizing s with
  | nil => simpa using h
  | cons r rest ih =>
    exact ih _ (addToInverse_preserves_contains back r.id s m k h)

theorem foldl_addToInverse_contains (back : Ref) (rs : List Ref)
    (s : Store Entry) (m : Bool) (x : String) (hx : ∃ r ∈ rs, r.id = x) :
    entryContainsRef
      (lookupS (rs.foldl (fun st r => addToInverse false back r.id st m) s) x) back
      = true := by
  induction rs generalizing s with
  | nil => simp at hx
  | cons r rest ih =>
    rcases hx with ⟨r', hr', hid⟩
    rcases List.mem_cons.mp hr' with h1 | h1
    · subst h1
      subst hid
      exact foldl_addToInverse_preserves_contains back rest _ m r'.id
        (addToInverse_contains_self back r'.id s m)
    · exact ih _ ⟨r', h1, hid⟩

theorem foldl_addToInverse_lookup_ne (refl : Bool) (back : Ref) (rs : List Ref)
    (s : Store Entry) (m : Bool) (k : String) (h : ∀ r ∈ rs, r.id ≠ k) :
    lookupS (rs.foldl (fun st r => addToInverse refl back r.id st m) s) k
      = lookupS s k := by
  induction rs generalizing s with
  | nil => rfl
  | cons r rest ih =>
    rw [List.foldl_cons, ih _ (fun r' hr' => h r' (List.mem_cons_of_mem r hr')),
      addToInverse_lookup_ne refl back r.id s m k
        (fun hk => h r (List.mem_cons_self r rest) (hk ▸ rfl))]

theorem addToInverse_refl_self (back : Ref) (s : Store Entry) (m : Bool) :
    addToInverse true back back.id s m = s := by
  unfold addToInverse
  simp

theorem foldl_addToInverse_refl_lookup_self (back : Ref) (rs : List Ref)
    (s : Store Entry) (m : Bool) (k : String) (hk : back.id = k) :
    lookupS (rs.foldl (fun st r => addToInverse true back r.id st m) s) k
      = lookupS s k := by
  subst hk
  induction rs generalizing s with
  | nil => rfl
  | cons r rest ih =>
    by_cases hr : r.id = back.id
    · rw [List.foldl_cons]
      have : addToInverse true back r.id s m = s := by
        rw [hr]
        exact addToInverse_refl_self back s m
      rw [this, ih]
    · rw [List.foldl_cons, ih, addToInverse_lookup_ne true back r.id s m back.id
        (fun hk => hr (hk.symm))]

theorem populateInverse_eq_foldl (refl : Bool) (d : Payload) (back : Ref)
    (s : Store Entry) (m : Bool) :
    populateInverse refl d back s m
      = d.data.refs.foldl (fun st r => addToInverse refl back r.id st m) s := by
  rcases d with ⟨(_ | r | rs)⟩ <;> rfl

end RelCache.Addon

namespace RelCache.Addon

open RelCache

theorem removeFromInverse_lookup_ne (id iid : String) (s : Store Entry) (k : String)
    (h : k ≠ iid) :
    lookupS (removeFromInverse id iid s) k = lookupS s k := by
  unfold removeFromInverse
  cases hl : lookupS s iid with
  | none => simp [hl]
  | some e =>
    cases he : e.data with
    | null => simp [hl, he]
    | single r => simp [hl, he, lookupS_setS_ne _ _ _ _ h]
    | list rs => simp [hl, he, lookupS_setS_ne _ _ _ _ h]

theorem hasIdAt_removeFromInverse_self (id iid : String) (s : Store Entry) :
    hasIdAt (removeFromInverse id iid s) iid id = false := by
  unfold removeFromInverse
  cases hl : lookupS s iid with
  | none => simp [hasIdAt, hl]
  | some e =>
    cases he : e.data with
    | null => simp [hasIdAt, hl, he, Data.hasId, Data.refs]
    | single r => simp [hasIdAt, hl, he, lookupS_setS_self, Data.hasId, Data.refs]
    | list rs =>
      simp only [hasIdAt, hl, he, lookupS_setS_self]
      exact filter_ne_any_beq_false rs id

theorem hasIdAt_removeFromInverse_false (id iid : String) (s : Store Entry)
    (k : String) (h : hasIdAt s k id = false) :
    hasIdAt (removeFromInverse id iid s) k id = false := by
  by_cases hk : k = iid
  · subst hk
    exact hasIdAt_removeFromInverse_self id k s
  · unfold hasIdAt
    rw [removeFromInverse_lookup_ne id iid s k hk]
    exact h

theorem foldl_removeFromInverse_lookup_ne (id : String) (rs : List Ref)
    (s : Store Entry) (k : String) (h : ∀ r ∈ rs, r.id ≠ k) :
    lookupS (rs.foldl (fun st x => removeFromInverse id x.id st) s) k
      = lookupS s k := by
  induction rs generalizing s with
  | nil => rfl
  | cons r rest ih =>
    rw [List.foldl_cons, ih _ (fun r' hr' => h r' (List.mem_cons_of_mem r hr')),
      removeFromInverse_lookup_ne id r.id s k
        (fun hk => h r (List.mem_cons_self r rest) (hk ▸ rfl))]

theorem hasIdAt_foldl_removeFromInverse_false (id : String) (rs : List Ref)
    (s : Store Entry) (k : String) (h : hasIdAt s k id = false) :
    hasIdAt (rs.foldl (fun st x => removeFromInverse id x.id st) s) k id = false := by
  induction rs generalizing s with
  | nil => simpa using h
  | cons r rest ih =>
    exact ih _ (hasIdAt_removeFromInverse_false id r.id s k h)

theorem hasIdAt_foldl_removeFromInverse (id : String) (rs : List Ref)
    (s : Store Entry) (k : String) (hk : ∃ x ∈ rs, x.id = k) :
    hasIdAt (rs.foldl (fun st x => removeFromInverse id x.id st) s) k id = false := by
  induction rs generalizing s with
  | nil => simp at hk
  | cons r rest ih =>
    rcases hk with ⟨x, hx, hid⟩
    rcases List.mem_cons.mp hx with h1 | h1
    · subst h1
      subst hid
      exact hasIdAt_foldl_removeFromInverse_false id rest _ x.id
        (hasIdAt_removeFromInverse_self id x.id s)
    · exact ih _ ⟨x, h1, hid⟩

theorem removeInverse_eq_foldl (id : String) (o : Option Entry) (s : Store Entry) :
    removeInverse id o s
      = (refsOfEntry o).foldl (fun st x => removeFromInverse id x.id st) s := by
  cases o with
  | none => rfl
  | some e => rcases e with ⟨(_ | r | rs)⟩ <;> rfl

end RelCache.Addon

namespace RelCache

theorem and_beq_eq_false {a b c d : String} (h : ¬(a = b ∧ c = d)) :
    (a == b && c == d) = false := by
  by_cases h1 : a = b
  · by_cases h2 : c = d
    · exact absurd ⟨h1, h2⟩ h
    · simp [h2]
  · simp [h1]

end RelCache

namespace RelCache.Addon

open RelCache

theorem hasIdAt_setS_ne (s : Store Entry) (k i : String) (v : Entry) (r : String)
    (h : r ≠ k) : hasIdAt (setS s k v) r i = hasIdAt s r i := by
  unfold hasIdAt
  rw [lookupS_setS_ne s k r v h]

theorem hasIdAt_foldl_addToInverse_ne (refl : Bool) (back : Ref) (rs : List Ref)
    (s : Store Entry) (m : Bool) (k i : String) (h : ∀ x ∈ rs, x.id ≠ k) :
    hasIdAt (rs.foldl (fun st x => addToInverse refl back x.id st m) s) k i
      = hasIdAt s k i := by
  unfold hasIdAt
  rw [foldl_addToInverse_lookup_ne refl back rs s m k h]

theorem flushStep_lhs_nonrefl (l : Ledger) (mn i rn : String) (d : Payload)
    (hmn : mn = l.lhsModelName) (hrn : rn = l.lhsRelationshipName)
    (h : l.isReflexive = false) :
    flushStep l (mn, i, rn, d)
      = { l with
          lhsPayloads := setS l.lhsPayloads i d
          rhsPayloads := populateInverse false d ⟨i, mn⟩
            (removeInverse i (lookupS l.lhsPayloads i) l.rhsPayloads) l.rhsIsMany } := by
  subst hmn
  subst hrn
  unfold flushStep
  simp [h]

theorem flushStep_lhs_refl (l : Ledger) (mn i rn : String) (d : Payload)
    (hmn : mn = l.lhsModelName) (hrn : rn = l.lhsRelationshipName)
    (h : l.isReflexive = true) :
    flushStep l (mn, i, rn, d)
      = { l with
          lhsPayloads := populateInverse true d ⟨i, mn⟩
            (setS (removeInverse i (lookupS l.lhsPayloads i) l.lhsPayloads) i d)
            l.rhsIsMany
          rhsPayloads := populateInverse true d ⟨i, mn⟩
            (setS (removeInverse i (lookupS l.lhsPayloads i) l.lhsPayloads) i d)
            l.rhsIsMany } := by
  subst hmn
  subst hrn
  unfold flushStep
  simp [h]

theorem flushStep_rhs_nonrefl (l : Ledger) (mn i rn : String) (d : Payload)
    (hmn : ¬(mn = l.lhsModelName ∧ rn = l.lhsRelationshipName))
    (h : l.isReflexive = false) :
    flushStep l (mn, i, rn, d)
      = { l with
          rhsPayloads := setS l.rhsPayloads i d
          lhsPayloads := populateInverse false d ⟨i, mn⟩
            (removeInverse i (lookupS l.rhsPayloads i) l.lhsPayloads) l.lhsIsMany } := by
  unfold flushStep
  simp [and_beq_eq_false hmn, h]

theorem flushPending_of_pending_nil (l : Ledger) (h : l.pending = []) :
    l.flushPending = l := by
  cases l with
  | mk a b c d e f g st p =>
    simp only at h
    subst h
    rfl

end RelCache.Addon

namespace RelCache.Part000

open RelCache

theorem uFlushStep_lhs_nonrefl (l : Ledger) (mn i rn : String) (d : Payload)
    (hmn : mn = l.lhsModelName) (hrn : rn = l.lhsRelationshipName)
    (h : l.isReflexive = false) :
    flushStep l (mn, i, rn, d)
      = { l with
          lhsPayloads := setS l.lhsPayloads i ⟨d, false⟩
          rhsPayloads := populateInverse d ⟨i, mn⟩
            (removeInverse i (lookupS l.lhsPayloads i) l.rhsPayloads) l.rhsIsMany } := by
  subst hmn
  subst hrn
  unfold flushStep
  simp [h]

theorem uFlushPending_of_pending_nil (l : Ledger) (h : l.pending = []) :
    l.flushPending = l := by
  cases l with
  | mk a b c d e f g st p =>
    simp only at h
    subst h
    rfl

end RelCache.Part000

namespace RelCache.Addon

open RelCache

theorem removeInverse_none (id : String) (s : Store Entry) :
    removeInverse id none s = s := rfl

theorem flushStep_mk_lhs_nonrefl (a b c dn : String) (e f : Bool)
    (ls rs : Store Entry) (p : List (String × String × String × Payload))
    (i : String) (dd : Payload) (h : (a == c && b == dn) = false) :
    flushStep (Ledger.mk a b c dn e f ls rs p) (a, i, b, dd)
      = Ledger.mk a b c dn e f (setS ls i dd)
          (populateInverse false dd ⟨i, a⟩ (removeInverse i (lookupS ls i) rs) f) p := by
  unfold flushStep Ledger.isReflexive
  simp [h]

theorem flushStep_mk_lhs_refl (a b c dn : String) (e f : Bool)
    (ls rs : Store Entry) (p : List (String × String × String × Payload))
    (i : String) (dd : Payload) (h : (a == c && b == dn) = true) :
    flushStep (Ledger.mk a b c dn e f ls rs p) (a, i, b, dd)
      = Ledger.mk a b c dn e f
          (populateInverse true dd ⟨i, a⟩
            (setS (removeInverse i (lookupS ls i) ls) i dd) f)
          (populateInverse true dd ⟨i, a⟩
            (setS (removeInverse i (lookupS ls i) ls) i dd) f) p := by
  unfold flushStep Ledger.isReflexive
  simp [h]

theorem flushStep_mk_rhs_nonrefl (a b c dn : String) (e f : Bool)
    (ls rs : Store Entry) (p : List (String × String × String × Payload))
    (mn i rn : String) (dd : Payload)
    (hm : (mn == a && rn == b) = false) (h : (a == c && b == dn) = false) :
    flushStep (Ledger.mk a b c dn e f ls rs p) (mn, i, rn, dd)
      = Ledger.mk a b c dn e f
          (populateInverse false dd ⟨i, mn⟩ (removeInverse i (lookupS rs i) ls) e)
          (setS rs i dd) p := by
  unfold flushStep Ledger.isReflexive
  simp [hm, h]

end RelCache.Addon

namespace RelCache.Part000

open RelCache

theorem uFlushStep_mk_lhs_nonrefl (a b c dn : String) (e f : Bool)
    (ls rs : Store Entry) (p : List (String × String × String × Payload))
    (i : String) (dd : Payload) (h : (a == c && b == dn) = false) :
    flushStep (Ledger.mk a b c dn e f ls rs p) (a, i, b, dd)
      = Ledger.mk a b c dn e f (setS ls i ⟨dd, false⟩)
          (populateInverse dd ⟨i, a⟩ (removeInverse i (lookupS ls i) rs) f) p := by
  unfold flushStep Ledger.isReflexive
  simp [h]

end RelCache.Part000

open RelCache in
/-- C5: the pending queue is flushed strictly in arrival order and
consumed.  For three queued pushes for the same `(type, id, relName)`
flushed from a fresh ledger, the owning side afterwards holds exactly
the third push's payload (in the unnamed, flag-carrying variant, as a
directly-pushed entry with `inverse = false`), and no inverse entry
still lists `id` for a reference present only in the first two
pushes. -/
theorem flush_fifo_last_push_wins (tL rL tR rR : String) (mL mR : Bool)
    (i : String) (d1 d2 d3 : Payload) (r : String)
    (hr12 : r ∈ d1.data.ids ∨ r ∈ d2.data.ids)
    (hr3 : r ∉ d3.data.ids)
    (hri : (Addon.mkLedger tL rL tR rR mL mR).isReflexive = true → r ≠ i) :
    ((((Addon.mkLedger tL rL tR rR mL mR).pushPending tL i rL d1).pushPending
        tL i rL d2).pushPending tL i rL d3).flushPending.pending = [] ∧
    lookupS ((((Addon.mkLedger tL rL tR rR mL mR).pushPending tL i rL d1).pushPending
        tL i rL d2).pushPending tL i rL d3).flushPending.lhsPayloads i = some d3 ∧
    Addon.hasIdAt ((((Addon.mkLedger tL rL tR rR mL mR).pushPending tL i rL d1).pushPending
        tL i rL d2).pushPending tL i rL d3).flushPending.rhsPayloads r i = false ∧
    (¬(tL = tR ∧ rL = rR) →
      lookupS ((((Part000.mkLedger tL rL tR rR mL mR).pushPending tL i rL d1).pushPending
          tL i rL d2).pushPending tL i rL d3).flushPending.lhsPayloads i
        = some ⟨d3, false⟩) := by
  have hr3' : ∀ x ∈ d3.data.refs, x.id ≠ r :=
    fun x hx hxr => hr3 (hxr ▸ List.mem_map_of_mem Ref.id hx)
  have hflush : ((((Addon.mkLedger tL rL tR rR mL mR).pushPending tL i rL d1).pushPending
      tL i rL d2).pushPending tL i rL d3).flushPending
      = Addon.flushStep (Addon.flushStep (Addon.flushStep
          (Addon.Ledger.mk tL rL tR rR mL mR [] [] []) (tL, i, rL, d1)) (tL, i, rL, d2))
          (tL, i, rL, d3) := rfl
  have huflush : ((((Part000.mkLedger tL rL tR rR mL mR).pushPending tL i rL d1).pushPending
      tL i rL d2).pushPending tL i rL d3).flushPending
      = Part000.flushStep (Part000.flushStep (Part000.flushStep
          (Part000.Ledger.mk tL rL tR rR mL mR [] [] []) (tL, i, rL, d1)) (tL, i, rL, d2))
          (tL, i, rL, d3) := rfl
  cases hR : (tL == tR && rL == rR) with
  | false =>
    rw [hflush,
      Addon.flushStep_mk_lhs_nonrefl tL rL tR rR mL mR [] [] [] i d1 hR,
      Addon.flushStep_mk_lhs_nonrefl tL rL tR rR mL mR _ _ _ i d2 hR,
      Addon.flushStep_mk_lhs_nonrefl tL rL tR rR mL mR _ _ _ i d3 hR]
    refine ⟨rfl, ?_, ?_, ?_⟩
    · simp only [lookupS_setS_self]
    · simp only [Addon.populateInverse_eq_foldl, Addon.removeInverse_eq_foldl,
        lookupS_setS_self, Addon.refsOfEntry]
      rw [Addon.hasIdAt_foldl_addToInverse_ne false ⟨i, tL⟩ d3.data.refs _ _ r i hr3']
      by_cases hcase : r ∈ d2.data.ids
      · obtain ⟨x, hx, hxid⟩ := List.mem_map.mp hcase
        exact Addon.hasIdAt_foldl_removeFromInverse i d2.data.refs _ r ⟨x, hx, hxid⟩
      · have hr2' : ∀ x ∈ d2.data.refs, x.id ≠ r :=
          fun x hx hxr => hcase (hxr ▸ List.mem_map_of_mem Ref.id hx)
        have hr1 : r ∈ d1.data.ids := hr12.resolve_right hcase
        obtain ⟨x, hx, hxid⟩ := List.mem_map.mp hr1
        apply Addon.hasIdAt_foldl_removeFromInverse_false
        rw [Addon.hasIdAt_foldl_addToInverse_ne false ⟨i, tL⟩ d2.data.refs _ _ r i hr2']
        exact Addon.hasIdAt_foldl_removeFromInverse i d1.data.refs _ r ⟨x, hx, hxid⟩
    · intro hne
      have hRu : (tL == tR && rL == rR) = false := hR
      rw [huflush,
        Part000.uFlushStep_mk_lhs_nonrefl tL rL tR rR mL mR [] [] [] i d1 hRu,
        Part000.uFlushStep_mk_lhs_nonrefl tL rL tR rR mL mR _ _ _ i d2 hRu,
        Part000.uFlushStep_mk_lhs_nonrefl tL rL tR rR mL mR _ _ _ i d3 hRu]
      simp only [lookupS_setS_self]
  | true =>
    have hri' : r ≠ i := hri hR
    rw [hflush,
      Addon.flushStep_mk_lhs_refl tL rL tR rR mL mR [] [] [] i d1 hR,
      Addon.flushStep_mk_lhs_refl tL rL tR rR mL mR _ _ _ i d2 hR,
      Addon.flushStep_mk_lhs_refl tL rL tR rR mL mR _ _ _ i d3 hR]
    simp only [Addon.populateInverse_eq_foldl, lookupS, Addon.removeInverse_none]
    have hs1i :
        lookupS (List.foldl
            (fun st r => Addon.addToInverse true ⟨i, tL⟩ r.id st mR)
            (setS ([] : Store Addon.Entry) i d1) d1.data.refs) i
          = some d1 := by
      rw [Addon.foldl_addToInverse_refl_lookup_self ⟨i, tL⟩ d1.data.refs _ mR i rfl,
        lookupS_setS_self]
    rw [hs1i]
    simp only [Addon.removeInverse_eq_foldl, Addon.refsOfEntry]
    have hs2i :
        lookupS (List.foldl
            (fun st r => Addon.addToInverse true ⟨i, tL⟩ r.id st mR)
            (setS (List.foldl
              (fun st x => Addon.removeFromInverse i x.id st)
              (List.foldl (fun st r => Addon.addToInverse true ⟨i, tL⟩ r.id st mR)
                (setS ([] : Store Addon.Entry) i d1) d1.data.refs)
              d1.data.refs) i d2) d2.data.refs) i
          = some d2 := by
      rw [Addon.foldl_addToInverse_refl_lookup_self ⟨i, tL⟩ d2.data.refs _ mR i rfl,
        lookupS_setS_self]
    rw [hs2i]
    refine ⟨trivial, ?_, ?_, ?_⟩
    · rw [Addon.foldl_addToInverse_refl_lookup_self ⟨i, tL⟩ d3.data.refs _ mR i rfl,
        lookupS_setS_self]
    · rw [Addon.hasIdAt_foldl_addToInverse_ne true ⟨i, tL⟩ d3.data.refs _ _ r i hr3',
        Addon.hasIdAt_setS_ne _ _ _ _ _ hri']
      by_cases hcase : r ∈ d2.data.ids
      · obtain ⟨x, hx, hxid⟩ := List.mem_map.mp hcase
        exact Addon.hasIdAt_foldl_removeFromInverse i d2.data.refs _ r ⟨x, hx, hxid⟩
      · have hr2' : ∀ x ∈ d2.data.refs, x.id ≠ r :=
          fun x hx hxr => hcase (hxr ▸ List.mem_map_of_mem Ref.id hx)
        have hr1 : r ∈ d1.data.ids := hr12.resolve_right hcase
        obtain ⟨x, hx, hxid⟩ := List.mem_map.mp hr1
        apply Addon.hasIdAt_foldl_removeFromInverse_false
        rw [Addon.hasIdAt_foldl_addToInverse_ne true ⟨i, tL⟩ d2.data.refs _ _ r i hr2',
          Addon.hasIdAt_setS_ne _ _ _ _ _ hri']
        exact Addon.hasIdAt_foldl_removeFromInverse i d1.data.refs _ r ⟨x, hx, hxid⟩
    · intro hne
      exact absurd hR (by simp [Bool.and_eq_true, beq_iff_eq] at *; tauto)

open RelCache in
/-- C5 witness: a concrete three-push instance of
`flush_fifo_last_push_wins`, with its hypotheses discharged at
`user hasMany hobbies` and references 2, 3, 4. -/
theorem flush_fifo_last_push_wins_witness :
    lookupS (((((Addon.mkLedger "user" "hobbies" "hobby" "user" true false).pushPending
        "user" "1" "hobbies" ⟨.list [⟨"2", "hobby"⟩]⟩).pushPending
        "user" "1" "hobbies" ⟨.list [⟨"3", "hobby"⟩]⟩).pushPending
        "user" "1" "hobbies" ⟨.list [⟨"4", "hobby"⟩]⟩).flushPending).lhsPayloads "1"
      = some ⟨.list [⟨"4", "hobby"⟩]⟩ ∧
    Addon.hasIdAt (((((Addon.mkLedger "user" "hobbies" "hobby" "user" true false).pushPending
        "user" "1" "hobbies" ⟨.list [⟨"2", "hobby"⟩]⟩).pushPending
        "user" "1" "hobbies" ⟨.list [⟨"3", "hobby"⟩]⟩).pushPending
        "user" "1" "hobbies" ⟨.list [⟨"4", "hobby"⟩]⟩).flushPending).rhsPayloads "2" "1"
      = false := by
  have h := flush_fifo_last_push_wins "user" "hobbies" "hobby" "user" true false "1"
    ⟨.list [⟨"2", "hobby"⟩]⟩ ⟨.list [⟨"3", "hobby"⟩]⟩ ⟨.list [⟨"4", "hobby"⟩]⟩ "2"
    (by decide) (by decide) (by decide)
  exact ⟨h.2.1, h.2.2.1⟩

namespace RelCache.Addon

open RelCache

theorem getEntry_mk_lhs (a b c dn : String) (e f : Bool) (ls rs : Store Entry)
    (p : List (String × String × String × Payload)) (i : String) :
    (Ledger.mk a b c dn e f ls rs p).getEntry a i b = lookupS ls i := by
  unfold Ledger.getEntry Ledger.ownStore
  simp

theorem getEntry_mk_rhs (a b c dn : String) (e f : Bool) (ls rs : Store Entry)
    (p : List (String × String × String × Payload)) (mn i rn : String)
    (h : (mn == a && rn == b) = false) :
    (Ledger.mk a b c dn e f ls rs p).getEntry mn i rn = lookupS rs i := by
  unfold Ledger.getEntry Ledger.ownStore
  simp [h]

end RelCache.Addon

open RelCache in
/-- C2 amended: pushing `(typeA, Y, relName)` with references containing
`B = (typeB, X)` makes `get(typeB, X, inverseRelName)` return data
containing the back-reference `(typeA, Y)`, regardless of push order
between the two sides, whenever `B`'s own push (if any) also references
`Y`: this holds for the single push alone, and for the two consistent
pushes flushed in either order, with the owner's entry then listing `X`
as well.  (The unrestricted both-direction state biconditional of the
claim is refuted by `mutual_reference_iff_counterexample`: a second
owner overwrites a to-one inverse entry without striking the first
owner's list.) -/
theorem push_derives_back_reference (tA rA tB rB : String) (mL mR : Bool)
    (x y : String) (dA dB : Payload)
    (hne : ¬(tA = tB ∧ rA = rB))
    (hx : (⟨x, tB⟩ : Ref) ∈ dA.data.refs)
    (hy : (⟨y, tA⟩ : Ref) ∈ dB.data.refs) :
    (Addon.entryContainsRef
      (((Addon.mkLedger tA rA tB rB mL mR).pushPending tA y rA dA).get tB x rB).2
      ⟨y, tA⟩ = true ∧
     (((Addon.mkLedger tA rA tB rB mL mR).pushPending tA y rA dA).get tA y rA).2
      = some dA) ∧
    (Addon.entryContainsRef
      ((((Addon.mkLedger tA rA tB rB mL mR).pushPending tA y rA dA).pushPending
          tB x rB dB).get tA y rA).2 ⟨x, tB⟩ = true ∧
     Addon.entryContainsRef
      ((((Addon.mkLedger tA rA tB rB mL mR).pushPending tA y rA dA).pushPending
          tB x rB dB).get tB x rB).2 ⟨y, tA⟩ = true) ∧
    (Addon.entryContainsRef
      ((((Addon.mkLedger tA rA tB rB mL mR).pushPending tB x rB dB).pushPending
          tA y rA dA).get tA y rA).2 ⟨x, tB⟩ = true ∧
     Addon.entryContainsRef
      ((((Addon.mkLedger tA rA tB rB mL mR).pushPending tB x rB dB).pushPending
          tA y rA dA).get tB x rB).2 ⟨y, tA⟩ = true) := by
  have hR : (tA == tB && rA == rB) = false := and_beq_eq_false hne
  have hRB : (tB == tA && rB == rA) = false :=
    and_beq_eq_false (fun hc => hne ⟨hc.1.symm, hc.2.symm⟩)
  have hxe : ∃ r ∈ dA.data.refs, r.id = x := ⟨⟨x, tB⟩, hx, rfl⟩
  have hye : ∃ r ∈ dB.data.refs, r.id = y := ⟨⟨y, tA⟩, hy, rfl⟩
  have hf1 : ((Addon.mkLedger tA rA tB rB mL mR).pushPending tA y rA dA).flushPending
      = Addon.flushStep (Addon.Ledger.mk tA rA tB rB mL mR [] [] [])
          (tA, y, rA, dA) := rfl
  have hf2 : (((Addon.mkLedger tA rA tB rB mL mR).pushPending tA y rA dA).pushPending
        tB x rB dB).flushPending
      = Addon.flushStep (Addon.flushStep (Addon.Ledger.mk tA rA tB rB mL mR [] [] [])
          (tA, y, rA, dA)) (tB, x, rB, dB) := rfl
  have hf3 : (((Addon.mkLedger tA rA tB rB mL mR).pushPending tB x rB dB).pushPending
        tA y rA dA).flushPending
      = Addon.flushStep (Addon.flushStep (Addon.Ledger.mk tA rA tB rB mL mR [] [] [])
          (tB, x, rB, dB)) (tA, y, rA, dA) := rfl
  refine ⟨⟨?_, ?_⟩, ⟨?_, ?_⟩, ⟨?_, ?_⟩⟩
  · simp only [Addon.Ledger.get, hf1,
      Addon.flushStep_mk_lhs_nonrefl tA rA tB rB mL mR [] [] [] y dA hR,
      Addon.getEntry_mk_rhs tA rA tB rB mL mR _ _ [] tB x rB hRB,
      Addon.populateInverse_eq_foldl]
    exact Addon.foldl_addToInverse_contains ⟨y, tA⟩ dA.data.refs _ mR x hxe
  · simp only [Addon.Ledger.get, hf1,
      Addon.flushStep_mk_lhs_nonrefl tA rA tB rB mL mR [] [] [] y dA hR,
      Addon.getEntry_mk_lhs tA rA tB rB mL mR _ _ [] y, lookupS_setS_self]
  · simp only [Addon.Ledger.get, hf2,
      Addon.flushStep_mk_lhs_nonrefl tA rA tB rB mL mR [] [] [] y dA hR,
      Addon.flushStep_mk_rhs_nonrefl tA rA tB rB mL mR _ _ [] tB x rB dB hRB hR,
      Addon.getEntry_mk_lhs tA rA tB rB mL mR _ _ [] y,
      Addon.populateInverse_eq_foldl]
    exact Addon.foldl_addToInverse_contains ⟨x, tB⟩ dB.data.refs _ mL y hye
  · simp only [Addon.Ledger.get, hf2,
      Addon.flushStep_mk_lhs_nonrefl tA rA tB rB mL mR [] [] [] y dA hR,
      Addon.flushStep_mk_rhs_nonrefl tA rA tB rB mL mR _ _ [] tB x rB dB hRB hR,
      Addon.getEntry_mk_rhs tA rA tB rB mL mR _ _ [] tB x rB hRB, lookupS_setS_self]
    simpa [Addon.entryContainsRef] using hy
  · simp only [Addon.Ledger.get, hf3,
      Addon.flushStep_mk_rhs_nonrefl tA rA tB rB mL mR [] [] [] tB x rB dB hRB hR,
      Addon.flushStep_mk_lhs_nonrefl tA rA tB rB mL mR _ _ [] y dA hR,
      Addon.getEntry_mk_lhs tA rA tB rB mL mR _ _ [] y, lookupS_setS_self]
    simpa [Addon.entryContainsRef] using hx
  · simp only [Addon.Ledger.get, hf3,
      Addon.flushStep_mk_rhs_nonrefl tA rA tB rB mL mR [] [] [] tB x rB dB hRB hR,
      Addon.flushStep_mk_lhs_nonrefl tA rA tB rB mL mR _ _ [] y dA hR,
      Addon.getEntry_mk_rhs tA rA tB rB mL mR _ _ [] tB x rB hRB,
      Addon.populateInverse_eq_foldl]
    exact Addon.foldl_addToInverse_contains ⟨y, tA⟩ dA.data.refs _ mR x hxe

open RelCache in
/-- C2 witness: the symmetry theorem instantiated at the worked
`user hasMany hobbies` pair, with every hypothesis discharged. -/
theorem push_derives_back_reference_witness :
    Addon.entryContainsRef
      (((Addon.mkLedger "user" "hobbies" "hobby" "user" true false).pushPending
        "user" "1" "hobbies" ⟨.list [⟨"2", "hobby"⟩]⟩).get "hobby" "2" "user").2
      ⟨"1", "user"⟩ = true := by
  have h := push_derives_back_reference "user" "hobbies" "hobby" "user" true false
    "2" "1" ⟨.list [⟨"2", "hobby"⟩]⟩ ⟨.single ⟨"1", "user"⟩⟩
    (by decide) (by decide) (by decide)
  exact h.1.1

namespace RelCache.Addon

open RelCache

theorem hasIdAt_eraseS_self (s : Store Entry) (k i : String) :
    hasIdAt (eraseS s k) k i = false := by
  unfold hasIdAt
  rw [lookupS_eraseS_self]

theorem hasIdAt_eraseS_ne (s : Store Entry) (k q i : String) (h : q ≠ k) :
    hasIdAt (eraseS s k) q i = hasIdAt s q i := by
  unfold hasIdAt
  rw [lookupS_eraseS_ne s k q h]

theorem hasIdAt_removeInverse_refs (id : String) (o : Option Entry)
    (s : Store Entry) (q : Ref) (hq : q ∈ refsOfEntry o) :
    hasIdAt (removeInverse id o s) q.id id = false := by
  rw [removeInverse_eq_foldl]
  exact hasIdAt_foldl_removeFromInverse id (refsOfEntry o) s q.id ⟨q, hq, rfl⟩

end RelCache.Addon

open RelCache in
/-- C6: after flushing, `unload` is gated by residency.  If no inverse
entity referenced by the owning entry is resident, the entry is
deleted and `id` is struck out of every referenced inverse entry; if at
least one is resident, the ledger is left entirely unchanged. -/
theorem unload_residency_gate (resident : String → String → Bool)
    (l : Addon.Ledger) (m i rn : String)
    (hp : l.pending = [])
    (hal : l.isReflexive = true → l.rhsPayloads = l.lhsPayloads) :
    (Addon.inverseLoaded resident (lookupS (l.ownStore m rn) i) = true →
       Addon.Ledger.unload resident l m i rn = l) ∧
    (Addon.inverseLoaded resident (lookupS (l.ownStore m rn) i) = false →
       lookupS ((Addon.Ledger.unload resident l m i rn).ownStore m rn) i = none ∧
       ∀ q ∈ Addon.refsOfEntry (lookupS (l.ownStore m rn) i),
         Addon.hasIdAt ((Addon.Ledger.unload resident l m i rn).otherStore m rn) q.id i
           = false) := by
  have hfl : l.flushPending = l := Addon.flushPending_of_pending_nil l hp
  cases hb : (m == l.lhsModelName && rn == l.lhsRelationshipName) with
  | true =>
    cases hrefl : l.isReflexive with
    | true =>
      have hals := hal hrefl
      constructor
      · intro hres
        simp only [Addon.Ledger.ownStore, hb, if_pos] at hres
        simp [Addon.Ledger.unload, hfl, hb, hrefl, hres]
      · intro hres
        simp only [Addon.Ledger.ownStore, hb, if_pos] at hres
        constructor
        · simp only [Addon.Ledger.unload, hfl, hb, hrefl, hres, if_true, if_false,
            Bool.false_eq_true, Addon.Ledger.ownStore, lookupS_eraseS_self]
        · intro q hq
          simp only [Addon.Ledger.ownStore, hb] at hq
          simp only [Addon.Ledger.unload, hfl, hb, hrefl, hres, if_true, if_false,
            Bool.false_eq_true, Addon.Ledger.otherStore]
          by_cases hqi : q.id = i
          · rw [hqi]
            exact Addon.hasIdAt_eraseS_self _ _ _
          · rw [Addon.hasIdAt_eraseS_ne _ _ _ _ hqi]
            exact Addon.hasIdAt_removeInverse_refs i _ _ q hq
    | false =>
      constructor
      · intro hres
        simp only [Addon.Ledger.ownStore, hb, if_pos] at hres
        simp [Addon.Ledger.unload, Addon.unloadId, hfl, hb, hrefl, hres]
      · intro hres
        simp only [Addon.Ledger.ownStore, hb, if_pos] at hres
        constructor
        · simp only [Addon.Ledger.unload, Addon.unloadId, hfl, hb, hrefl, hres, if_true,
            if_false, Bool.false_eq_true, Addon.Ledger.ownStore, lookupS_eraseS_self]
        · intro q hq
          simp only [Addon.Ledger.ownStore, hb] at hq
          simp only [Addon.Ledger.unload, Addon.unloadId, hfl, hb, hrefl, hres, if_true,
            if_false, Bool.false_eq_true, Addon.Ledger.otherStore]
          exact Addon.hasIdAt_removeInverse_refs i _ _ q hq
  | false =>
    cases hrefl : l.isReflexive with
    | true =>
      have hals := hal hrefl
      constructor
      · intro hres
        simp only [Addon.Ledger.ownStore, hb, Bool.false_eq_true, if_false] at hres
        rw [hals] at hres
        simp [Addon.Ledger.unload, hfl, hb, hrefl, hres]
      · intro hres
        simp only [Addon.Ledger.ownStore, hb, Bool.false_eq_true, if_false] at hres
        rw [hals] at hres
        constructor
        · simp only [Addon.Ledger.unload, hfl, hb, hrefl, hres, if_true, if_false,
            Bool.false_eq_true, Addon.Ledger.ownStore, lookupS_eraseS_self]
        · intro q hq
          simp only [Addon.Ledger.ownStore, hb, Bool.false_eq_true, if_false] at hq
          rw [hals] at hq
          simp only [Addon.Ledger.unload, hfl, hb, hrefl, hres, if_true, if_false,
            Bool.false_eq_true, Addon.Ledger.otherStore]
          by_cases hqi : q.id = i
          · rw [hqi]
            exact Addon.hasIdAt_eraseS_self _ _ _
          · rw [Addon.hasIdAt_eraseS_ne _ _ _ _ hqi]
            exact Addon.hasIdAt_removeInverse_refs i _ _ q hq
    | false =>
      constructor
      · intro hres
        simp only [Addon.Ledger.ownStore, hb, Bool.false_eq_true, if_false] at hres
        simp [Addon.Ledger.unload, Addon.unloadId, hfl, hb, hrefl, hres]
      · intro hres
        simp only [Addon.Ledger.ownStore, hb, Bool.false_eq_true, if_false] at hres
        constructor
        · simp only [Addon.Ledger.unload, Addon.unloadId, hfl, hb, hrefl, hres, if_true,
            if_false, Bool.false_eq_true, Addon.Ledger.ownStore, lookupS_eraseS_self]
        · intro q hq
          simp only [Addon.Ledger.ownStore, hb, Bool.false_eq_true, if_false] at hq
          simp only [Addon.Ledger.unload, Addon.unloadId, hfl, hb, hrefl, hres, if_true,
            if_false, Bool.false_eq_true, Addon.Ledger.otherStore]
          exact Addon.hasIdAt_removeInverse_refs i _ _ q hq

open RelCache in
/-- C6 witness: unloading `user/1 hobbies [hobby/2]` with `hobby/2`
resident leaves the ledger untouched; with nothing resident the entry
is removed and `hobby/2`'s back-reference no longer lists 1. -/
theorem unload_residency_gate_witness :
    Addon.Ledger.unload (fun _ _ => true)
      (Addon.Ledger.mk "user" "hobbies" "hobby" "user" true false
        [("1", ⟨.list [⟨"2", "hobby"⟩]⟩)] [("2", ⟨.single ⟨"1", "user"⟩⟩)] [])
      "user" "1" "hobbies"
      = Addon.Ledger.mk "user" "hobbies" "hobby" "user" true false
        [("1", ⟨.list [⟨"2", "hobby"⟩]⟩)] [("2", ⟨.single ⟨"1", "user"⟩⟩)] [] ∧
    lookupS ((Addon.Ledger.unload (fun _ _ => false)
      (Addon.Ledger.mk "user" "hobbies" "hobby" "user" true false
        [("1", ⟨.list [⟨"2", "hobby"⟩]⟩)] [("2", ⟨.single ⟨"1", "user"⟩⟩)] [])
      "user" "1" "hobbies").ownStore "user" "hobbies") "1" = none := by
  constructor
  · exact (unload_residency_gate (fun _ _ => true)
      (Addon.Ledger.mk "user" "hobbies" "hobby" "user" true false
        [("1", ⟨.list [⟨"2", "hobby"⟩]⟩)] [("2", ⟨.single ⟨"1", "user"⟩⟩)] [])
      "user" "1" "hobbies" rfl (by decide)).1 (by decide)
  · exact ((unload_residency_gate (fun _ _ => false)
      (Addon.Ledger.mk "user" "hobbies" "hobby" "user" true false
        [("1", ⟨.list [⟨"2", "hobby"⟩]⟩)] [("2", ⟨.single ⟨"1", "user"⟩⟩)] [])
      "user" "1" "hobbies" rfl (by decide)).2 (by decide)).1

open RelCache in
/-- C10: with an empty pending queue and no owning-side entry at `id`,
`unload` is a safe no-op: the missing entry counts as having no
resident inverse, the strike pass does nothing, deleting the absent key
changes nothing, and the ledger is returned exactly as it was. -/
theorem unload_missing_entry_noop (resident : String → String → Bool)
    (l : Addon.Ledger) (m i rn : String)
    (hp : l.pending = [])
    (hnone : lookupS (l.ownStore m rn) i = none)
    (hal : l.isReflexive = true → l.rhsPayloads = l.lhsPayloads) :
    Addon.Ledger.unload resident l m i rn = l := by
  have hfl : l.flushPending = l := Addon.flushPending_of_pending_nil l hp
  cases hb : (m == l.lhsModelName && rn == l.lhsRelationshipName) with
  | true =>
    simp only [Addon.Ledger.ownStore, hb, if_pos] at hnone
    cases hrefl : l.isReflexive with
    | true =>
      have hals := hal hrefl
      simp only [Addon.Ledger.unload, hfl, hb, hrefl, hnone, Addon.inverseLoaded,
        Addon.removeInverse, if_true, Bool.false_eq_true, if_false,
        eraseS_of_lookupS_none _ _ hnone]
      cases l
      simp_all
    | false =>
      simp only [Addon.Ledger.unload, Addon.unloadId, hfl, hb, hrefl, hnone,
        Addon.inverseLoaded, Addon.removeInverse, if_true, Bool.false_eq_true, if_false,
        eraseS_of_lookupS_none _ _ hnone]
  | false =>
    simp only [Addon.Ledger.ownStore, hb, Bool.false_eq_true, if_false] at hnone
    cases hrefl : l.isReflexive with
    | true =>
      have hals := hal hrefl
      have hnone' : lookupS l.lhsPayloads i = none := by rwa [hals] at hnone
      simp only [Addon.Ledger.unload, hfl, hb, hrefl, hnone', Addon.inverseLoaded,
        Addon.removeInverse, if_true, Bool.false_eq_true, if_false,
        eraseS_of_lookupS_none _ _ hnone']
      cases l
      simp_all
    | false =>
      simp only [Addon.Ledger.unload, Addon.unloadId, hfl, hb, hrefl, hnone,
        Addon.inverseLoaded, Addon.removeInverse, if_true, Bool.false_eq_true, if_false,
        eraseS_of_lookupS_none _ _ hnone]

open RelCache in
/-- C10 witness: unloading an id with no entry from a flushed ledger
whose stores hold other data returns the ledger unchanged. -/
theorem unload_missing_entry_noop_witness :
    Addon.Ledger.unload (fun _ _ => false)
      (Addon.Ledger.mk "user" "hobbies" "hobby" "user" true false
        [("1", ⟨.list [⟨"2", "hobby"⟩]⟩)] [("2", ⟨.single ⟨"1", "user"⟩⟩)] [])
      "user" "9" "hobbies"
      = Addon.Ledger.mk "user" "hobbies" "hobby" "user" true false
        [("1", ⟨.list [⟨"2", "hobby"⟩]⟩)] [("2", ⟨.single ⟨"1", "user"⟩⟩)] [] :=
  unload_missing_entry_noop (fun _ _ => false)
    (Addon.Ledger.mk "user" "hobbies" "hobby" "user" true false
      [("1", ⟨.list [⟨"2", "hobby"⟩]⟩)] [("2", ⟨.single ⟨"1", "user"⟩⟩)] [])
    "user" "9" "hobbies" rfl (by decide) (by decide)

open RelCache in
/-- C9: a pushed fragments map key that the schema does not declare
contributes nothing: the registry push of any fragments list equals the
push of that list with the unknown key's entries removed (the key is
silently dropped, no error is possible in the total model), and a `get`
with an unknown relationship name returns nothing and leaves the
registry unchanged. -/
theorem unknown_relationship_dropped (r : Addon.Registry) (s : Schema)
    (m i k : String) (lf : List (String × Payload))
    (hk : schemaHas s m k = false) :
    Addon.Registry.push r s m i lf
      = Addon.Registry.push r s m i (lf.filter (fun p => p.1 != k)) ∧
    Addon.Registry.get r s m i k = (r, none) := by
  have hmeta : relMeta s m k = none := by
    cases hrm : relMeta s m k with
    | none => rfl
    | some v =>
      rw [schemaHas, hrm] at hk
      simp at hk
  constructor
  · unfold Addon.Registry.push
    induction lf generalizing r with
    | nil => rfl
    | cons hd t ih =>
      obtain ⟨k', p⟩ := hd
      by_cases hh : k' = k
      · subst hh
        have hstep :
            (Addon.Registry.getRelationshipPayloads r s m k' true) = (r, none) := by
          unfold Addon.Registry.getRelationshipPayloads
          rw [hmeta]
        rw [List.filter_cons]
        simp only [bne_self_eq_false, Bool.false_eq_true, if_false, List.foldl_cons,
          hstep]
        exact ih r
      · rw [List.filter_cons]
        have : ((k', p).1 != k) = true := by simpa [bne_iff_ne] using hh
        rw [this]
        simp only [if_true, List.foldl_cons]
        exact ih _
  · unfold Addon.Registry.get Addon.Registry.getRelationshipPayloads
    rw [hmeta]

open RelCache in
/-- C9 witness: a fragments map carrying an unknown `nickname` key
pushes identically with and without it, and `get` on the unknown name
returns nothing. -/
theorem unknown_relationship_dropped_witness :
    Addon.Registry.push Addon.emptyRegistry userHobbySchema "user" "1"
        [("nickname", ⟨.null⟩), ("hobbies", ⟨.list [⟨"2", "hobby"⟩]⟩)]
      = Addon.Registry.push Addon.emptyRegistry userHobbySchema "user" "1"
        ([("nickname", ⟨.null⟩), ("hobbies", ⟨.list [⟨"2", "hobby"⟩]⟩)].filter
          (fun p => p.1 != "nickname")) ∧
    Addon.Registry.get Addon.emptyRegistry userHobbySchema "user" "1" "nickname"
      = (Addon.emptyRegistry, none) :=
  unknown_relationship_dropped Addon.emptyRegistry userHobbySchema "user" "1"
    "nickname" [("nickname", ⟨.null⟩), ("hobbies", ⟨.list [⟨"2", "hobby"⟩]⟩)]
    (by decide)
